import Mathlib

/-!
Shallow embedding of the subtitle-generation core of main.py
(class EnglishToJapaneseSubtitle): WAV validation, the transcription
adapter, the translation adapter, the segment pipeline, timestamp
formatting and SRT rendering.  Python floats are modelled as exact
rationals, Python dicts with optional keys as structures with Option
fields, and remote API calls as explicit function parameters returning
Except.
-/

/-- Decimal digit test for a character, the character class of decimal
digits used by the regular expressions of the specification. -/
def isDig (c : Char) : Bool := 48 ≤ c.toNat && c.toNat ≤ 57

/-- Little-endian decimal digits of a natural number; the first argument
is structural fuel, and any fuel at least n gives the digits of n. -/
def digitsLE : Nat → Nat → List Nat
  | 0, _ => []
  | f + 1, n => if n = 0 then [] else n % 10 :: digitsLE f (n / 10)

/-- Decimal character list of a natural number, most significant digit
first, as produced by Python string formatting of a nonnegative int. -/
def natRepr (n : Nat) : List Char :=
  if n = 0 then [ '0' ] else (digitsLE n n).reverse.map Nat.digitChar

/-- Zero padding of a digit string to a given width, as in Python zero
padded format specifications applied to a nonnegative number. -/
def zfill (w : Nat) (l : List Char) : List Char :=
  List.replicate (w - l.length) '0' ++ l

/-- Python zero padded integer formatting of width w; a negative number
keeps its sign in front of the padding. -/
def py02d (w : Nat) (i : Int) : String :=
  if i < 0 then "-" ++ String.mk (zfill (w - 1) (natRepr i.natAbs))
  else String.mk (zfill w (natRepr i.toNat))

/-- Numeric value of a big-endian decimal digit string, the reading used
when parsing a formatted timestamp back into numbers. -/
def valBE (l : List Char) : Nat :=
  l.foldl (fun a c => 10 * a + (c.toNat - 48)) 0

/-- Whitespace characters that Python str.strip removes in this
pipeline: space, tab, newline and carriage return. -/
def isWS (c : Char) : Bool := c == ' ' || c == '\t' || c == '\n' || c == '\r'

/-- Python str.strip: whitespace removed from both ends. -/
def py_strip (s : String) : String :=
  String.mk (((s.data.dropWhile isWS).reverse.dropWhile isWS).reverse)

/-- One element of the segments list of a verbose transcription
response; keys are read with dict.get and may be absent. -/
structure RawSegment where
  start : Option ℚ
  «end» : Option ℚ
  text : Option String
deriving DecidableEq

/-- Result dictionary built by transcribe_english_with_timestamps and
consumed by create_subtitle_segments via dict.get with defaults. -/
structure TranscriptionResult where
  text : Option String
  language : Option String
  duration : Option ℚ
  segments : Option (List RawSegment)
deriving DecidableEq

/-- One bilingual subtitle segment as appended by
create_subtitle_segments. -/
structure SubtitleSegment where
  start : ℚ
  «end» : ℚ
  english : String
  japanese : String
deriving DecidableEq

/-- Python float modulo for the divisors used here: a % b equals
a - b * floor (a / b). -/
def pymod (a b : ℚ) : ℚ := a - b * ⌊a / b⌋

/-- Round half to even to an integer, the rounding Python applies when
storing fractional seconds as whole timedelta microseconds and in float
formatting with a fixed number of decimals. -/
def round_half_even (q : ℚ) : ℤ :=
  if Int.fract q < 1 / 2 then ⌊q⌋
  else if 1 / 2 < Int.fract q then ⌊q⌋ + 1
  else if ⌊q⌋ % 2 = 0 then ⌊q⌋ else ⌊q⌋ + 1

/-- Quantization performed by the timedelta constructor on a seconds
argument: the value is stored as a whole number of microseconds,
rounding half to even, and total_seconds returns that quantized value. -/
def usQuantize (seconds : ℚ) : ℚ :=
  (round_half_even (seconds * 1000000) : ℚ) / 1000000

/-- Embedding of format_time_srt, main.py lines 186 to 193.  The value
first passes through timedelta, which quantizes it to whole
microseconds with rounding half to even; every total_seconds call then
returns that quantized value, and Python int applied to the nonnegative
results of floor division and modulo by positive divisors is the
floor. -/
def format_time_srt (seconds : ℚ) : String :=
  let total := usQuantize seconds
  let hours : ℤ := ⌊total / 3600⌋
  let minutes : ℤ := ⌊pymod total 3600 / 60⌋
  let secs : ℤ := ⌊pymod total 60⌋
  let millisecs : ℤ := ⌊pymod total 1 * 1000⌋
  py02d 2 hours ++ ":" ++ py02d 2 minutes ++ ":" ++ py02d 2 secs ++ "," ++ py02d 3 millisecs

/-- Embedding of format_time_display, main.py lines 226 to 230. -/
def format_time_display (seconds : ℚ) : String :=
  let minutes : ℤ := ⌊seconds / 60⌋
  let secs : ℤ := ⌊pymod seconds 60⌋
  py02d 2 minutes ++ ":" ++ py02d 2 secs

/-- Parser for the SRT timestamp shape: at least two hour digits, a
colon, two minute digits, a colon, two second digits, a comma and three
millisecond digits; returns the four parsed fields. -/
def parseSRT (s : String) : Option (Nat × Nat × Nat × Nat) :=
  if (s.data.takeWhile isDig).length < 2 then none
  else
    match s.data.dropWhile isDig with
    | ':' :: m1 :: m2 :: ':' :: s1 :: s2 :: ',' :: x1 :: x2 :: x3 :: [] =>
      if isDig m1 && isDig m2 && isDig s1 && isDig s2 && isDig x1 && isDig x2 && isDig x3 then
        some (valBE (s.data.takeWhile isDig), valBE [m1, m2], valBE [s1, s2],
          valBE [x1, x2, x3])
      else none
    | _ => none

/-- Parser for the display timestamp shape: at least two minute digits,
a colon and two second digits; returns the two parsed fields. -/
def parseDisplay (s : String) : Option (Nat × Nat) :=
  if (s.data.takeWhile isDig).length < 2 then none
  else
    match s.data.dropWhile isDig with
    | ':' :: s1 :: s2 :: [] =>
      if isDig s1 && isDig s2 then some (valBE (s.data.takeWhile isDig), valBE [s1, s2])
      else none
    | _ => none

/-- Rendering of the file size in mebibytes with one decimal digit, as
Python one-decimal float formatting does for the sizes at issue. -/
def fmtMB (file_size : Nat) : String :=
  let tenths : Nat := (round_half_even ((file_size : ℚ) * 10 / (1024 * 1024))).toNat
  String.mk (natRepr (tenths / 10)) ++ "." ++ String.mk (natRepr (tenths % 10))

/-- Embedding of validate_wav_file, main.py lines 51 to 76: the outcome
of wave.open is a parameter, ok or the exception text; the size check
runs only when the container opened. -/
def validate_wav_file (waveOpen : Except String Unit) (file_size : Nat) : Bool × String :=
  match waveOpen with
  | Except.error e => (false, "WAVファイルの読み込みエラー: " ++ e)
  | Except.ok _ =>
    if 25 * 1024 * 1024 < file_size then
      (false, "ファイルサイズが大きすぎます: " ++ fmtMB file_size ++ "MB（上限: 25MB）")
    else
      (true, "WAVファイルは有効です")

/-- Attributes of the verbose transcription response object consumed by
transcribe_english_with_timestamps; segments is absent when the response
object lacks that attribute. -/
structure Transcript where
  text : String
  language : String
  duration : ℚ
  segments : Option (List RawSegment)
deriving DecidableEq

/-- Result dictionary built from a transcription response, main.py
lines 111 to 116. -/
def resultOf (t : Transcript) : TranscriptionResult :=
  ⟨some t.text, some t.language, some t.duration, some (t.segments.getD [])⟩

/-- Embedding of transcribe_english_with_timestamps, main.py lines 78 to
120.  The remote call is the parameter api, applied to the optional
timestamp granularities argument and to the file position at the moment
of the call: the file is opened at position zero, and after a failed
first attempt seek resets the position to zero before the retry. -/
def transcribe_english_with_timestamps (client : Option Unit)
    (waveOpen : Except String Unit) (file_size : Nat)
    (api : Option (List String) → Nat → Except String Transcript) :
    String ⊕ TranscriptionResult :=
  match client with
  | none => Sum.inl "OpenAI APIキーが設定されていません"
  | some _ =>
    let v := validate_wav_file waveOpen file_size
    if !v.1 then Sum.inl v.2
    else
      match api (some ["segment"]) 0 with
      | Except.ok transcript => Sum.inr (resultOf transcript)
      | Except.error _ =>
        match api none 0 with
        | Except.ok transcript => Sum.inr (resultOf transcript)
        | Except.error e => Sum.inl ("英語音声認識エラー: " ++ e)

/-- System instruction chosen by translate_to_japanese according to the
context argument, main.py lines 129 to 140. -/
def system_prompt (context : String) : String :=
  if context = "subtitle" then
    "あなたは映像字幕の専門翻訳者です。以下の英語テキストを自然で読みやすい日本語字幕に翻訳してください。\n\n翻訳の際の注意事項：\n- 字幕として読みやすい自然な日本語にする\n- 文脈を考慮し、映像に合う表現を使う\n- 敬語は文脈に応じて適切に使用\n- 専門用語は日本語で一般的な表現を使用\n- 長すぎる文は適切に分割する\n"
  else
    "以下の英語テキストを自然な日本語に翻訳してください。"

/-- Embedding of translate_to_japanese, main.py lines 122 to 153.  The
chat completion call is the parameter chat, receiving the system prompt
and the user text; a raised exception is its error value.  The function
is total: every outcome, including a remote failure, is returned as a
string. -/
def translate_to_japanese (client : Option Unit)
    (chat : String → String → Except String String)
    (english_text : String) (context : String) : String :=
  match client with
  | none => "OpenAI APIキーが設定されていません"
  | some _ =>
    match chat (system_prompt context) english_text with
    | Except.ok content => py_strip content
    | Except.error e => "翻訳エラー: " ++ e

/-- Embedding of create_subtitle_segments, main.py lines 155 to 184;
translate stands for the bound method translate_to_japanese with its
default subtitle context.  A string input, an upstream error, is passed
through unchanged. -/
def create_subtitle_segments (translate : String → String) :
    String ⊕ TranscriptionResult → String ⊕ List SubtitleSegment
  | Sum.inl s => Sum.inl s
  | Sum.inr transcription_result =>
    let segments := transcription_result.segments.getD []
    if segments.isEmpty then
      let english_text := transcription_result.text.getD ""
      let japanese_text := translate english_text
      Sum.inr [⟨0, transcription_result.duration.getD 0, english_text, japanese_text⟩]
    else
      Sum.inr (segments.foldl
        (fun subtitle_segments segment =>
          let english_text := py_strip (segment.text.getD "")
          if english_text.isEmpty then subtitle_segments
          else
            subtitle_segments ++
              [⟨segment.start.getD 0, segment.«end».getD 0, english_text,
                translate english_text⟩])
        [])

/-- One numbered SRT block: index line, timestamp line, japanese text
line and a blank separator line. -/
def srtBlock (i : Nat) (segment : SubtitleSegment) : String :=
  String.mk (natRepr i) ++ "\n" ++
    (format_time_srt segment.start ++ " --> " ++ format_time_srt segment.«end» ++ "\n") ++
    (segment.japanese ++ "\n\n")

/-- Embedding of generate_srt_content, main.py lines 195 to 206:
enumerate from one and accumulate the formatted lines per segment. -/
def generate_srt_content (subtitle_segments : List SubtitleSegment) : String :=
  (List.enumFrom 1 subtitle_segments).foldl
    (fun srt_content p =>
      srt_content ++ (String.mk (natRepr p.1) ++ "\n") ++
        (format_time_srt p.2.start ++ " --> " ++ format_time_srt p.2.«end» ++ "\n") ++
        (p.2.japanese ++ "\n\n"))
    ""

/-- Concatenation of a list of strings in order. -/
def sconcat : List String → String
  | [] => ""
  | s :: rest => s ++ sconcat rest

/-- Python str.lower for the ASCII file names at issue. -/
def py_lower (s : String) : String := String.mk (s.data.map Char.toLower)

/-- Python str.endswith. -/
def py_endswith (s suffix : String) : Bool := suffix.data.isSuffixOf s.data

/-- Dictionary returned by process_wav_file on success, main.py lines
260 to 264. -/
structure ProcessOutput where
  segments : List SubtitleSegment
  original_text : String
  duration : ℚ
deriving DecidableEq

/-- Embedding of process_wav_file, main.py lines 232 to 264; the
progress callback only reports milestones and does not affect the
result. -/
def process_wav_file (client : Option Unit) (waveOpen : Except String Unit)
    (file_size : Nat) (api : Option (List String) → Nat → Except String Transcript)
    (chat : String → String → Except String String) (file_path : String) :
    String ⊕ ProcessOutput :=
  if !py_endswith (py_lower file_path) ".wav" then
    Sum.inl "WAVファイルのみ対応しています。他の形式は事前にWAVに変換してください。"
  else
    match transcribe_english_with_timestamps client waveOpen file_size api with
    | Sum.inl s => Sum.inl s
    | Sum.inr transcription_result =>
      match create_subtitle_segments
          (fun s => translate_to_japanese client chat s "subtitle")
          (Sum.inr transcription_result) with
      | Sum.inl s => Sum.inl s
      | Sum.inr subtitle_segments =>
        Sum.inr ⟨subtitle_segments, transcription_result.text.getD "",
          transcription_result.duration.getD 0⟩

/-- Every digit produced by digitsLE is below ten. -/
theorem digitsLE_lt_ten : ∀ (f n : Nat), ∀ d ∈ digitsLE f n, d < 10 := by
  intro f
  induction f with
  | zero => intro n d hd; simp [digitsLE] at hd
  | succ f ih =>
    intro n d hd
    by_cases hn : n = 0
    · simp [digitsLE, hn] at hd
    · simp only [digitsLE, if_neg hn, List.mem_cons] at hd
      rcases hd with h | h
      · omega
      · exact ih _ _ h

/-- With enough fuel, folding the little-endian digits back gives the
number. -/
theorem digitsLE_foldr : ∀ (f n : Nat), n ≤ f →
    (digitsLE f n).foldr (fun d acc => d + 10 * acc) 0 = n := by
  intro f
  induction f with
  | zero => intro n h; interval_cases n; simp [digitsLE]
  | succ f ih =>
    intro n h
    by_cases hn : n = 0
    · simp [digitsLE, hn]
    · simp only [digitsLE, if_neg hn, List.foldr_cons]
      have hdiv : n / 10 ≤ f := by omega
      rw [ih _ hdiv]
      omega

/-- Value of a digit string extended by one character on the right. -/
theorem valBE_append_singleton (l : List Char) (c : Char) :
    valBE (l ++ [c]) = 10 * valBE l + (c.toNat - 48) := by
  simp [valBE, List.foldl_append]

/-- A digit character is in the digit class. -/
theorem digitChar_isDig {d : Nat} (hd : d < 10) : isDig (Nat.digitChar d) = true := by
  interval_cases d <;> rfl

/-- Reading a digit character back gives the digit. -/
theorem digitChar_toNat {d : Nat} (hd : d < 10) : (Nat.digitChar d).toNat - 48 = d := by
  interval_cases d <;> rfl

/-- Evaluating the rendered reversed digit list agrees with the
little-endian fold. -/
theorem valBE_reverse_map : ∀ (ld : List Nat), (∀ d ∈ ld, d < 10) →
    valBE (ld.reverse.map Nat.digitChar) =
      ld.foldr (fun d acc => d + 10 * acc) 0 := by
  intro ld
  induction ld with
  | nil => intro _; rfl
  | cons d tl ih =>
    intro h
    have hd : d < 10 := h d (List.mem_cons_self d tl)
    have htl : ∀ x ∈ tl, x < 10 := fun x hx => h x (List.mem_cons_of_mem d hx)
    simp only [List.reverse_cons, List.map_append, List.map_cons, List.map_nil]
    rw [valBE_append_singleton, ih htl, digitChar_toNat hd, List.foldr_cons]
    ring

/-- Round trip: evaluating the decimal rendering of a natural number
gives the number back. -/
theorem valBE_natRepr (n : Nat) : valBE (natRepr n) = n := by
  by_cases hn : n = 0
  · subst hn; rfl
  · unfold natRepr
    rw [if_neg hn, valBE_reverse_map _ (digitsLE_lt_ten n n), digitsLE_foldr n n le_rfl]

/-- Every character of the decimal rendering is a digit. -/
theorem natRepr_isDig (n : Nat) : ∀ c ∈ natRepr n, isDig c = true := by
  by_cases hn : n = 0
  · subst hn; intro c hc; simp [natRepr] at hc; subst hc; rfl
  · unfold natRepr
    rw [if_neg hn]
    intro c hc
    simp only [List.mem_map, List.mem_reverse] at hc
    obtain ⟨d, hd, rfl⟩ := hc
    exact digitChar_isDig (digitsLE_lt_ten n n d hd)

/-- Length bound for the little-endian digits. -/
theorem digitsLE_length : ∀ (f n k : Nat), n < 10 ^ k → (digitsLE f n).length ≤ k := by
  intro f
  induction f with
  | zero => intro n k _; simp [digitsLE]
  | succ f ih =>
    intro n k hk
    by_cases hn : n = 0
    · simp [digitsLE, hn]
    · have hk0 : k ≠ 0 := by
        rintro rfl
        simp at hk
        omega
      obtain ⟨k, rfl⟩ : ∃ j, k = j + 1 := ⟨k - 1, by omega⟩
      simp only [digitsLE, if_neg hn, List.length_cons]
      have : n / 10 < 10 ^ k := by
        rw [Nat.div_lt_iff_lt_mul (by norm_num)]
        calc n < 10 ^ (k + 1) := hk
        _ = 10 ^ k * 10 := by ring
      exact Nat.succ_le_succ (ih _ _ this)

/-- Length bound for the decimal rendering. -/
theorem natRepr_length {n k : Nat} (hn : n < 10 ^ k) (hk : 0 < k) :
    (natRepr n).length ≤ k := by
  by_cases h0 : n = 0
  · subst h0; simpa [natRepr] using hk
  · unfold natRepr
    rw [if_neg h0]
    simpa using digitsLE_length n n k hn

/-- Padding never shortens below the requested width. -/
theorem zfill_length_ge (w : Nat) (l : List Char) : w ≤ (zfill w l).length := by
  simp [zfill]
  omega

/-- Padding a string no longer than the width gives exactly the width. -/
theorem zfill_length_eq {w : Nat} {l : List Char} (h : l.length ≤ w) :
    (zfill w l).length = w := by
  simp [zfill]
  omega

/-- Padding with zeros keeps every character a digit. -/
theorem zfill_isDig {l : List Char} (h : ∀ c ∈ l, isDig c = true) (w : Nat) :
    ∀ c ∈ zfill w l, isDig c = true := by
  intro c hc
  simp only [zfill, List.mem_append, List.mem_replicate] at hc
  rcases hc with ⟨_, rfl⟩ | hc
  · rfl
  · exact h c hc

/-- Leading zeros do not change the parsed value. -/
theorem valBE_zfill (w : Nat) (l : List Char) : valBE (zfill w l) = valBE l := by
  unfold zfill
  generalize w - l.length = k
  induction k with
  | zero => rfl
  | succ k ih =>
    rw [List.replicate_succ]
    simpa [valBE] using ih

/-- Data of an appended string is the appended data. -/
theorem str_data_append (s t : String) : (s ++ t).data = s.data ++ t.data := rfl

/-- Appending strings is associative. -/
theorem str_append_assoc (a b c : String) : a ++ b ++ c = a ++ (b ++ c) := by
  apply String.ext
  rw [str_data_append, str_data_append, str_data_append, str_data_append, List.append_assoc]

/-- Appending the empty string on the right changes nothing. -/
theorem str_append_empty (a : String) : a ++ "" = a := by
  apply String.ext
  rw [str_data_append]
  have h : "".data = [] := rfl
  rw [h, List.append_nil]

/-- Splitting a list whose first part satisfies the predicate and whose
next character does not: takeWhile keeps exactly the first part. -/
theorem takeWhile_all_append (p : Char → Bool) :
    ∀ (l : List Char) (c : Char) (t : List Char),
      (∀ x ∈ l, p x = true) → p c = false →
      (l ++ c :: t).takeWhile p = l ∧ (l ++ c :: t).dropWhile p = c :: t := by
  intro l
  induction l with
  | nil =>
    intro c t _ hc
    constructor
    · simp [List.takeWhile, hc]
    · simp [List.dropWhile, hc]
  | cons x xs ih =>
    intro c t h hc
    have hx : p x = true := h x (List.mem_cons_self x xs)
    have hxs : ∀ y ∈ xs, p y = true := fun y hy => h y (List.mem_cons_of_mem x hy)
    obtain ⟨h1, h2⟩ := ih c t hxs hc
    constructor
    · simp [List.takeWhile, hx, h1]
    · simp [List.dropWhile, hx, h2]

/-- A list of length two is a literal pair. -/
theorem list_length_two {l : List Char} (h : l.length = 2) : ∃ a b, l = [a, b] := by
  match l, h with
  | [a, b], _ => exact ⟨a, b, rfl⟩

/-- A list of length three is a literal triple. -/
theorem list_length_three {l : List Char} (h : l.length = 3) :
    ∃ a b c, l = [a, b, c] := by
  match l, h with
  | [a, b, c], _ => exact ⟨a, b, c, rfl⟩

/-- Two-digit zero-padded rendering of a number below one hundred. -/
theorem zfill_natRepr_two {n : Nat} (hn : n < 100) :
    ∃ a b, zfill 2 (natRepr n) = [a, b] ∧ isDig a = true ∧ isDig b = true ∧
      valBE [a, b] = n := by
  have hlen : (zfill 2 (natRepr n)).length = 2 :=
    zfill_length_eq (natRepr_length (k := 2) (by norm_num at hn ⊢; omega) (by norm_num))
  obtain ⟨a, b, hab⟩ := list_length_two hlen
  refine ⟨a, b, hab, ?_, ?_, ?_⟩
  · exact zfill_isDig (natRepr_isDig n) 2 a (by rw [hab]; simp)
  · exact zfill_isDig (natRepr_isDig n) 2 b (by rw [hab]; simp)
  · rw [← hab, valBE_zfill, valBE_natRepr]

/-- Three-digit zero-padded rendering of a number below one thousand. -/
theorem zfill_natRepr_three {n : Nat} (hn : n < 1000) :
    ∃ a b c, zfill 3 (natRepr n) = [a, b, c] ∧ isDig a = true ∧ isDig b = true ∧
      isDig c = true ∧ valBE [a, b, c] = n := by
  have hlen : (zfill 3 (natRepr n)).length = 3 :=
    zfill_length_eq (natRepr_length (k := 3) (by norm_num at hn ⊢; omega) (by norm_num))
  obtain ⟨a, b, c, habc⟩ := list_length_three hlen
  refine ⟨a, b, c, habc, ?_, ?_, ?_, ?_⟩
  · exact zfill_isDig (natRepr_isDig n) 3 a (by rw [habc]; simp)
  · exact zfill_isDig (natRepr_isDig n) 3 b (by rw [habc]; simp)
  · exact zfill_isDig (natRepr_isDig n) 3 c (by rw [habc]; simp)
  · rw [← habc, valBE_zfill, valBE_natRepr]

/-- Floor of a rational divided by a positive integer is the integer
division of the floor. -/
theorem floor_div_int_q (t : ℚ) {c : ℤ} (hc : 0 < c) :
    ⌊t / (c : ℚ)⌋ = ⌊t⌋ / c := by
  have hc0 : (0 : ℚ) < (c : ℚ) := by exact_mod_cast hc
  have h1 : (⌊t⌋ / c * c : ℤ) ≤ ⌊t⌋ := Int.ediv_mul_le _ (by omega)
  have h2 : ⌊t⌋ < (⌊t⌋ / c + 1) * c := Int.lt_ediv_add_one_mul_self _ hc
  rw [Int.floor_eq_iff]
  constructor
  · rw [le_div_iff₀ hc0]
    calc ((⌊t⌋ / c : ℤ) : ℚ) * (c : ℚ) = ((⌊t⌋ / c * c : ℤ) : ℚ) := by push_cast; ring
    _ ≤ ((⌊t⌋ : ℤ) : ℚ) := by exact_mod_cast h1
    _ ≤ t := Int.floor_le t
  · rw [div_lt_iff₀ hc0]
    have h3 : (⌊t⌋ + 1 : ℤ) ≤ (⌊t⌋ / c + 1) * c := Int.add_one_le_iff.mpr h2
    calc t < ((⌊t⌋ : ℤ) : ℚ) + 1 := Int.lt_floor_add_one t
    _ = (((⌊t⌋ + 1 : ℤ)) : ℚ) := by push_cast; ring
    _ ≤ (((⌊t⌋ / c + 1) * c : ℤ) : ℚ) := by exact_mod_cast h3
    _ = (((⌊t⌋ / c : ℤ) : ℚ) + 1) * (c : ℚ) := by push_cast; ring

/-- Floor of the Python modulo by a positive integer is the integer
modulo of the floor. -/
theorem floor_pymod (t : ℚ) {c : ℤ} (hc : 0 < c) :
    ⌊pymod t (c : ℚ)⌋ = ⌊t⌋ % c := by
  unfold pymod
  rw [floor_div_int_q t hc]
  have h : (c : ℚ) * ((⌊t⌋ / c : ℤ) : ℚ) = ((c * (⌊t⌋ / c) : ℤ) : ℚ) := by push_cast; ring
  rw [h, Int.floor_sub_int, Int.emod_def]

/-- The Python modulo by one is the fractional part. -/
theorem pymod_one (t : ℚ) : pymod t 1 = Int.fract t := by
  unfold pymod
  rw [div_one, ← Int.self_sub_floor]
  ring

/-- The Python modulo by a positive divisor is nonnegative. -/
theorem pymod_nonneg (t : ℚ) {b : ℚ} (hb : 0 < b) : 0 ≤ pymod t b := by
  unfold pymod
  have h : (⌊t / b⌋ : ℚ) ≤ t / b := Int.floor_le _
  have := (mul_le_mul_left hb).mpr h
  rw [mul_div_cancel₀ t (ne_of_gt hb)] at this
  linarith

/-- The Python modulo by a positive divisor is below the divisor. -/
theorem pymod_lt (t : ℚ) {b : ℚ} (hb : 0 < b) : pymod t b < b := by
  unfold pymod
  have h : t / b < ⌊t / b⌋ + 1 := Int.lt_floor_add_one _
  have := (mul_lt_mul_left hb).mpr h
  rw [mul_div_cancel₀ t (ne_of_gt hb)] at this
  linarith

/-- Zero-padded formatting of a nonnegative integer drops the sign
branch. -/
theorem py02d_of_nonneg (w : Nat) {i : Int} (hi : 0 ≤ i) :
    py02d w i = String.mk (zfill w (natRepr i.toNat)) := by
  unfold py02d
  rw [if_neg (by omega)]

/-- Data of a string built from an explicit character list. -/
theorem str_data_mk (l : List Char) : (String.mk l).data = l := rfl

/-- Formatting a nonnegative integer given as a cast natural number. -/
theorem py02d_natCast (w n : Nat) : py02d w (n : ℤ) = String.mk (zfill w (natRepr n)) := by
  rw [py02d_of_nonneg w (by omega)]
  simp

/-- Parsing the assembled SRT timestamp string recovers the four
components. -/
theorem parseSRT_format (H M S MS : Nat) (hM : M < 100) (hS : S < 100) (hMS : MS < 1000) :
    parseSRT (String.mk (zfill 2 (natRepr H)) ++ ":" ++ String.mk (zfill 2 (natRepr M)) ++
        ":" ++ String.mk (zfill 2 (natRepr S)) ++ "," ++ String.mk (zfill 3 (natRepr MS))) =
      some (H, M, S, MS) := by
  obtain ⟨m1, m2, hm, hm1, hm2, hmv⟩ := zfill_natRepr_two hM
  obtain ⟨u1, u2, hu, hu1, hu2, huv⟩ := zfill_natRepr_two hS
  obtain ⟨x1, x2, x3, hx, hx1, hx2, hx3, hxv⟩ := zfill_natRepr_three hMS
  have hdata : (String.mk (zfill 2 (natRepr H)) ++ ":" ++ String.mk (zfill 2 (natRepr M)) ++
        ":" ++ String.mk (zfill 2 (natRepr S)) ++ "," ++ String.mk (zfill 3 (natRepr MS))).data =
      zfill 2 (natRepr H) ++
        (':' :: m1 :: m2 :: ':' :: u1 :: u2 :: ',' :: x1 :: x2 :: x3 :: []) := by
    simp [str_data_append, str_data_mk, hm, hu, hx]
  obtain ⟨htake, hdrop⟩ := takeWhile_all_append isDig (zfill 2 (natRepr H)) ':'
    (m1 :: m2 :: ':' :: u1 :: u2 :: ',' :: x1 :: x2 :: x3 :: [])
    (zfill_isDig (natRepr_isDig H) 2) rfl
  have hlen : ¬ ((zfill 2 (natRepr H)).length < 2) := by
    have := zfill_length_ge 2 (natRepr H)
    omega
  unfold parseSRT
  rw [hdata, htake, hdrop, if_neg hlen]
  simp only [hm1, hm2, hu1, hu2, hx1, hx2, hx3, Bool.and_self, if_true]
  rw [← hm, ← hu, ← hx, valBE_zfill, valBE_zfill, valBE_zfill,
    valBE_natRepr, valBE_natRepr, valBE_natRepr, valBE_zfill, valBE_natRepr]

/-- Hours component of the SRT formatter. -/
theorem floor_div_3600 (t : ℚ) : ⌊t / 3600⌋ = ⌊t⌋ / 3600 := by
  have h := floor_div_int_q t (c := 3600) (by norm_num)
  push_cast at h
  exact h

/-- Division by sixty in terms of the floor. -/
theorem floor_div_60 (t : ℚ) : ⌊t / 60⌋ = ⌊t⌋ / 60 := by
  have h := floor_div_int_q t (c := 60) (by norm_num)
  push_cast at h
  exact h

/-- Python modulo by 3600 in terms of the floor. -/
theorem floor_pymod_3600 (t : ℚ) : ⌊pymod t 3600⌋ = ⌊t⌋ % 3600 := by
  have h := floor_pymod t (c := 3600) (by norm_num)
  push_cast at h
  exact h

/-- Python modulo by sixty in terms of the floor. -/
theorem floor_pymod_60 (t : ℚ) : ⌊pymod t 60⌋ = ⌊t⌋ % 60 := by
  have h := floor_pymod t (c := 60) (by norm_num)
  push_cast at h
  exact h

/-- Rounding half to even of a nonnegative value is nonnegative. -/
theorem round_half_even_nonneg {q : ℚ} (hq : 0 ≤ q) : 0 ≤ round_half_even q := by
  have h0 : 0 ≤ ⌊q⌋ := Int.floor_nonneg.mpr hq
  unfold round_half_even
  split_ifs <;> omega

/-- Rounding half to even moves a value by at most one half. -/
theorem round_half_even_bounds (q : ℚ) :
    q - 1 / 2 ≤ (round_half_even q : ℚ) ∧ (round_half_even q : ℚ) ≤ q + 1 / 2 := by
  have hfr : q - ⌊q⌋ = Int.fract q := Int.self_sub_floor q
  have hf0 : 0 ≤ Int.fract q := Int.fract_nonneg q
  have hf1 : Int.fract q < 1 := Int.fract_lt_one q
  unfold round_half_even
  split_ifs with h1 h2 h3
  · refine ⟨?_, ?_⟩ <;> linarith
  · refine ⟨?_, ?_⟩ <;> push_cast <;> linarith
  · have he : Int.fract q = 1 / 2 := le_antisymm (not_lt.mp h2) (not_lt.mp h1)
    refine ⟨?_, ?_⟩ <;> linarith
  · have he : Int.fract q = 1 / 2 := le_antisymm (not_lt.mp h2) (not_lt.mp h1)
    refine ⟨?_, ?_⟩ <;> push_cast <;> linarith

/-- The microsecond quantization of a nonnegative value is
nonnegative. -/
theorem usQuantize_nonneg (t : ℚ) (ht : 0 ≤ t) : 0 ≤ usQuantize t := by
  have h := round_half_even_nonneg (q := t * 1000000) (by positivity)
  have hc : (0 : ℚ) ≤ (round_half_even (t * 1000000) : ℚ) := by exact_mod_cast h
  unfold usQuantize
  linarith

/-- The microsecond quantization moves a value by at most half a
microsecond. -/
theorem usQuantize_bounds (t : ℚ) :
    t - 1 / 2000000 ≤ usQuantize t ∧ usQuantize t ≤ t + 1 / 2000000 := by
  obtain ⟨h1, h2⟩ := round_half_even_bounds (t * 1000000)
  unfold usQuantize
  constructor
  · linarith
  · linarith

/-- Parsing the assembled decomposition of any nonnegative seconds
value into the four zero padded fields recovers the floor components
and truncated milliseconds of that value. -/
theorem parse_decomp (q : ℚ) (hq : 0 ≤ q) :
    parseSRT (py02d 2 ⌊q / 3600⌋ ++ ":" ++ py02d 2 ⌊pymod q 3600 / 60⌋ ++ ":" ++
        py02d 2 ⌊pymod q 60⌋ ++ "," ++ py02d 3 ⌊pymod q 1 * 1000⌋) =
      some ((⌊q⌋ / 3600).toNat, ((⌊q⌋ % 3600) / 60).toNat, (⌊q⌋ % 60).toNat,
        ⌊Int.fract q * 1000⌋.toNat) := by
  have hn0 : 0 ≤ ⌊q⌋ := Int.floor_nonneg.mpr hq
  have hf0 : 0 ≤ Int.fract q := Int.fract_nonneg q
  have hf1 : Int.fract q < 1 := Int.fract_lt_one q
  have hms0 : 0 ≤ ⌊Int.fract q * 1000⌋ := Int.floor_nonneg.mpr (by positivity)
  have hms1 : ⌊Int.fract q * 1000⌋ < 1000 := Int.floor_lt.mpr (by push_cast; linarith)
  have e1 : ⌊q / 3600⌋ = (((⌊q⌋ / 3600).toNat : ℕ) : ℤ) := by rw [floor_div_3600]; omega
  have e2 : ⌊pymod q 3600 / 60⌋ = ((((⌊q⌋ % 3600) / 60).toNat : ℕ) : ℤ) := by
    rw [floor_div_60, floor_pymod_3600]
    omega
  have e3 : ⌊pymod q 60⌋ = (((⌊q⌋ % 60).toNat : ℕ) : ℤ) := by rw [floor_pymod_60]; omega
  have e4 : ⌊pymod q 1 * 1000⌋ = ((⌊Int.fract q * 1000⌋.toNat : ℕ) : ℤ) := by
    rw [pymod_one]
    omega
  rw [e1, e2, e3, e4, py02d_natCast, py02d_natCast, py02d_natCast, py02d_natCast]
  exact parseSRT_format _ _ _ _ (by omega) (by omega) (by omega)

/-- Parsing the SRT output of the formatter on a nonnegative value
yields the floor decomposition and truncated milliseconds of the
microsecond-quantized value. -/
theorem format_time_srt_parse (t : ℚ) (ht : 0 ≤ t) :
    parseSRT (format_time_srt t) =
      some ((⌊usQuantize t⌋ / 3600).toNat, ((⌊usQuantize t⌋ % 3600) / 60).toNat,
        (⌊usQuantize t⌋ % 60).toNat, ⌊Int.fract (usQuantize t) * 1000⌋.toNat) := by
  rw [show format_time_srt t =
      py02d 2 ⌊usQuantize t / 3600⌋ ++ ":" ++ py02d 2 ⌊pymod (usQuantize t) 3600 / 60⌋ ++
        ":" ++ py02d 2 ⌊pymod (usQuantize t) 60⌋ ++ "," ++
        py02d 3 ⌊pymod (usQuantize t) 1 * 1000⌋ from rfl]
  exact parse_decomp (usQuantize t) (usQuantize_nonneg t ht)

/-- The gap between the quantized value and its truncated-millisecond
reading is below one millisecond by a half microsecond margin, because
the quantized value is a whole number of microseconds. -/
theorem usQuantize_ms_gap (t : ℚ) :
    Int.fract (usQuantize t) - ((⌊Int.fract (usQuantize t) * 1000⌋ : ℤ) : ℚ) / 1000 ≤
      999 / 1000000 := by
  have ha : Int.fract (usQuantize t) * 1000 =
      usQuantize t * 1000 - ((1000 * ⌊usQuantize t⌋ : ℤ) : ℚ) := by
    rw [← Int.self_sub_floor]
    push_cast
    ring
  have hb : Int.fract (Int.fract (usQuantize t) * 1000) = Int.fract (usQuantize t * 1000) := by
    rw [ha]
    exact Int.fract_sub_int _ _
  have hc : usQuantize t * 1000 = ((round_half_even (t * 1000000) : ℤ) : ℚ) / 1000 := by
    unfold usQuantize
    ring
  have hd : ⌊((round_half_even (t * 1000000) : ℤ) : ℚ) / 1000⌋ =
      round_half_even (t * 1000000) / 1000 := by
    have h := floor_div_int_q ((round_half_even (t * 1000000) : ℤ) : ℚ)
      (c := 1000) (by norm_num)
    rw [Int.floor_intCast] at h
    push_cast at h
    exact h
  have he : Int.fract (usQuantize t * 1000) =
      ((round_half_even (t * 1000000) % 1000 : ℤ) : ℚ) / 1000 := by
    rw [hc, ← Int.self_sub_floor, hd]
    push_cast [Int.emod_def]
    ring
  have h9 : (round_half_even (t * 1000000) % 1000 : ℤ) ≤ 999 := by omega
  have h9q : ((round_half_even (t * 1000000) % 1000 : ℤ) : ℚ) ≤ 999 := by exact_mod_cast h9
  have hg : Int.fract (Int.fract (usQuantize t) * 1000) =
      Int.fract (usQuantize t) * 1000 -
        ((⌊Int.fract (usQuantize t) * 1000⌋ : ℤ) : ℚ) := by
    rw [Int.self_sub_floor]
  have hcomb : Int.fract (usQuantize t) -
      ((⌊Int.fract (usQuantize t) * 1000⌋ : ℤ) : ℚ) / 1000 =
      ((round_half_even (t * 1000000) % 1000 : ℤ) : ℚ) / 1000 / 1000 := by
    rw [← he, ← hb, hg]
    ring
  rw [hcomb]
  linarith

/-- C4 (amended): for every seconds value at least zero, the SRT
formatter output has the shape of at least two zero padded hour digits,
two minute digits, two second digits, a comma and three millisecond
digits (the shape-checking parser succeeds), and reading the fields
back as hours times 3600 plus minutes times 60 plus seconds plus
milliseconds over 1000 reproduces the input within one millisecond;
because timedelta first quantizes the value to whole microseconds with
rounding half to even, the reading may exceed the input by up to half a
microsecond, and the truncation of the millisecond field applies to the
quantized value rather than to the input. -/
theorem format_time_srt_round_trip (t : ℚ) (ht : 0 ≤ t) :
    ∃ h m s ms : ℕ,
      parseSRT (format_time_srt t) = some (h, m, s, ms) ∧
      ((h : ℚ) * 3600 + m * 60 + s + ms / 1000) ≤ t + 1 / 2000000 ∧
      t < ((h : ℚ) * 3600 + m * 60 + s + ms / 1000) + 1 / 1000 := by
  have hq0 : 0 ≤ usQuantize t := usQuantize_nonneg t ht
  obtain ⟨hqb1, hqb2⟩ := usQuantize_bounds t
  have hn0 : 0 ≤ ⌊usQuantize t⌋ := Int.floor_nonneg.mpr hq0
  have hf0 : 0 ≤ Int.fract (usQuantize t) := Int.fract_nonneg _
  have hms0 : 0 ≤ ⌊Int.fract (usQuantize t) * 1000⌋ := Int.floor_nonneg.mpr (by positivity)
  have hgap := usQuantize_ms_gap t
  refine ⟨(⌊usQuantize t⌋ / 3600).toNat, ((⌊usQuantize t⌋ % 3600) / 60).toNat,
    (⌊usQuantize t⌋ % 60).toNat, ⌊Int.fract (usQuantize t) * 1000⌋.toNat,
    format_time_srt_parse t ht, ?_, ?_⟩
  all_goals
    have hint : ((⌊usQuantize t⌋ / 3600).toNat : ℤ) * 3600 +
        (((⌊usQuantize t⌋ % 3600) / 60).toNat : ℤ) * 60 +
        ((⌊usQuantize t⌋ % 60).toNat : ℤ) = ⌊usQuantize t⌋ := by omega
    have hsum : ((⌊usQuantize t⌋ / 3600).toNat : ℚ) * 3600 +
        (((⌊usQuantize t⌋ % 3600) / 60).toNat : ℚ) * 60 +
        ((⌊usQuantize t⌋ % 60).toNat : ℚ) = ((⌊usQuantize t⌋ : ℤ) : ℚ) := by
      exact_mod_cast hint
    have hmsz : ((⌊Int.fract (usQuantize t) * 1000⌋.toNat : ℕ) : ℤ) =
        ⌊Int.fract (usQuantize t) * 1000⌋ := by omega
    have hmsq : ((⌊Int.fract (usQuantize t) * 1000⌋.toNat : ℕ) : ℚ) =
        ((⌊Int.fract (usQuantize t) * 1000⌋ : ℤ) : ℚ) := by exact_mod_cast hmsz
    have hle : ((⌊Int.fract (usQuantize t) * 1000⌋ : ℤ) : ℚ) ≤
        Int.fract (usQuantize t) * 1000 := Int.floor_le _
    have hsplit : usQuantize t = ((⌊usQuantize t⌋ : ℤ) : ℚ) + Int.fract (usQuantize t) :=
      (Int.floor_add_fract _).symm
    rw [hsum, hmsq]
  · linarith
  · linarith

/-- Witness for the amended SRT round trip at the concrete value
3661.5. -/
theorem format_time_srt_round_trip_witness :
    0 ≤ (7323 / 2 : ℚ) ∧
      ∃ h m s ms : ℕ,
        parseSRT (format_time_srt (7323 / 2 : ℚ)) = some (h, m, s, ms) ∧
        ((h : ℚ) * 3600 + m * 60 + s + ms / 1000) ≤ (7323 / 2 : ℚ) + 1 / 2000000 ∧
        (7323 / 2 : ℚ) < ((h : ℚ) * 3600 + m * 60 + s + ms / 1000) + 1 / 1000 :=
  ⟨by norm_num, format_time_srt_round_trip (7323 / 2) (by norm_num)⟩

/-- Counterexample to the original C4: at 0.0009999996 seconds the
timedelta quantization rounds up to 1000 microseconds, the formatter
prints the millisecond field 001, and the parsed-back value one
millisecond exceeds the input, refuting that the formatted value never
exceeds the input. -/
theorem format_time_srt_rounds_up_counterexample :
    parseSRT (format_time_srt (9999996 / 10000000000 : ℚ)) = some (0, 0, 0, 1) ∧
    ¬ ((0 : ℚ) * 3600 + 0 * 60 + 0 + 1 / 1000 ≤ 9999996 / 10000000000) := by
  have hfl : ⌊(9999996 / 10000000000 * 1000000 : ℚ)⌋ = 999 := by
    rw [Int.floor_eq_iff]
    constructor <;> norm_num
  have hfr : Int.fract (9999996 / 10000000000 * 1000000 : ℚ) = 2499 / 2500 := by
    rw [← Int.self_sub_floor, hfl]
    norm_num
  have hrhe : round_half_even (9999996 / 10000000000 * 1000000 : ℚ) = 1000 := by
    unfold round_half_even
    rw [hfr, hfl, if_neg (by norm_num), if_pos (by norm_num)]
    norm_num
  have hq : usQuantize (9999996 / 10000000000 : ℚ) = 1 / 1000 := by
    unfold usQuantize
    rw [hrhe]
    norm_num
  constructor
  · have h := format_time_srt_parse (9999996 / 10000000000 : ℚ) (by norm_num)
    rw [hq] at h
    have h1 : ⌊(1 / 1000 : ℚ)⌋ = 0 := by
      rw [Int.floor_eq_iff]
      constructor <;> norm_num
    have h2 : Int.fract (1 / 1000 : ℚ) = 1 / 1000 := by
      rw [← Int.self_sub_floor, h1]
      norm_num
    have h3 : ⌊(1 / 1000 : ℚ) * 1000⌋ = 1 := by
      rw [show (1 / 1000 : ℚ) * 1000 = 1 by norm_num]
      exact Int.floor_one
    rw [h1, h2, h3] at h
    rw [h]
    decide
  · norm_num

/-- Parsing the assembled display timestamp string recovers the two
components. -/
theorem parseDisplay_format (M S : Nat) (hS : S < 100) :
    parseDisplay (String.mk (zfill 2 (natRepr M)) ++ ":" ++ String.mk (zfill 2 (natRepr S))) =
      some (M, S) := by
  obtain ⟨u1, u2, hu, hu1, hu2, huv⟩ := zfill_natRepr_two hS
  have hdata : (String.mk (zfill 2 (natRepr M)) ++ ":" ++
        String.mk (zfill 2 (natRepr S))).data =
      zfill 2 (natRepr M) ++ (':' :: u1 :: u2 :: []) := by
    simp [str_data_append, str_data_mk, hu]
  obtain ⟨htake, hdrop⟩ := takeWhile_all_append isDig (zfill 2 (natRepr M)) ':'
    (u1 :: u2 :: []) (zfill_isDig (natRepr_isDig M) 2) rfl
  have hlen : ¬ ((zfill 2 (natRepr M)).length < 2) := by
    have := zfill_length_ge 2 (natRepr M)
    omega
  unfold parseDisplay
  rw [hdata, htake, hdrop, if_neg hlen]
  simp only [hu1, hu2, Bool.and_self, if_true]
  rw [← hu, valBE_zfill, valBE_natRepr, valBE_zfill, valBE_natRepr]

/-- Parsing the display output of the formatter on a nonnegative value
yields total minutes and the remaining seconds. -/
theorem format_time_display_parse (t : ℚ) (ht : 0 ≤ t) :
    parseDisplay (format_time_display t) =
      some ((⌊t⌋ / 60).toNat, (⌊t⌋ % 60).toNat) := by
  have hn0 : 0 ≤ ⌊t⌋ := Int.floor_nonneg.mpr ht
  have e1 : ⌊t / 60⌋ = (((⌊t⌋ / 60).toNat : ℕ) : ℤ) := by rw [floor_div_60]; omega
  have e2 : ⌊pymod t 60⌋ = (((⌊t⌋ % 60).toNat : ℕ) : ℤ) := by rw [floor_pymod_60]; omega
  rw [show format_time_display t = py02d 2 ⌊t / 60⌋ ++ ":" ++ py02d 2 ⌊pymod t 60⌋ from rfl]
  rw [e1, e2, py02d_natCast, py02d_natCast]
  exact parseDisplay_format _ _ (by omega)

/-- C8: for every seconds value at least zero, the display formatter
output has the shape of at least two zero padded minute digits, a colon
and two second digits (the shape-checking parser succeeds), the minute
field is the floor of the value divided by sixty, accumulating past 59,
and the second field is the floor of the value modulo sixty. -/
theorem format_time_display_components (t : ℚ) (ht : 0 ≤ t) :
    ∃ m s : ℕ, parseDisplay (format_time_display t) = some (m, s) ∧
      (m : ℤ) = ⌊t / 60⌋ ∧ (s : ℤ) = ⌊t⌋ % 60 := by
  have hn0 : 0 ≤ ⌊t⌋ := Int.floor_nonneg.mpr ht
  refine ⟨(⌊t⌋ / 60).toNat, (⌊t⌋ % 60).toNat, format_time_display_parse t ht, ?_, by omega⟩
  rw [floor_div_60]
  omega

/-- Witness for the display components at the concrete value 125.5. -/
theorem format_time_display_components_witness :
    0 ≤ (251 / 2 : ℚ) ∧
      ∃ m s : ℕ, parseDisplay (format_time_display (251 / 2 : ℚ)) = some (m, s) ∧
        (m : ℤ) = ⌊(251 / 2 : ℚ) / 60⌋ ∧ (s : ℤ) = ⌊(251 / 2 : ℚ)⌋ % 60 :=
  ⟨by norm_num, format_time_display_components (251 / 2) (by norm_num)⟩

/-- Declarative description of the per-segment path: keep the segments
whose stripped text is nonempty, in order, each carrying its raw start
and end, the stripped text as english and its translation as japanese. -/
def keptSegments (translate : String → String) (ss : List RawSegment) : List SubtitleSegment :=
  (ss.filter fun segment => !(py_strip (segment.text.getD "")).isEmpty).map
    (fun segment => ⟨segment.start.getD 0, segment.«end».getD 0,
      py_strip (segment.text.getD ""), translate (py_strip (segment.text.getD ""))⟩)

/-- The accumulator loop of create_subtitle_segments computes the
filtered map. -/
theorem create_loop_eq (translate : String → String) :
    ∀ (ss : List RawSegment) (acc : List SubtitleSegment),
      ss.foldl
        (fun subtitle_segments segment =>
          let english_text := py_strip (segment.text.getD "")
          if english_text.isEmpty then subtitle_segments
          else
            subtitle_segments ++
              [⟨segment.start.getD 0, segment.«end».getD 0, english_text,
                translate english_text⟩])
        acc = acc ++ keptSegments translate ss := by
  intro ss
  induction ss with
  | nil => intro acc; simp [keptSegments]
  | cons x xs ih =>
    intro acc
    by_cases hx : (py_strip (x.text.getD "")).isEmpty
    · simp [List.foldl_cons, hx, ih, keptSegments, List.filter_cons]
    · simp [List.foldl_cons, hx, ih, keptSegments, List.filter_cons, List.append_assoc]

/-- The per-segment path of create_subtitle_segments produces exactly
the kept segments. -/
theorem create_filter_map (translate : String → String)
    (tr : TranscriptionResult) (ss : List RawSegment)
    (hss : tr.segments = some ss) (hne : ss ≠ []) :
    create_subtitle_segments translate (Sum.inr tr) =
      Sum.inr (keptSegments translate ss) := by
  obtain ⟨x, xs, rfl⟩ : ∃ y ys, ss = y :: ys := by
    cases ss with
    | nil => exact absurd rfl hne
    | cons y ys => exact ⟨y, ys, rfl⟩
  simp only [create_subtitle_segments, hss, Option.getD_some, List.isEmpty_cons,
    Bool.false_eq_true, if_false]
  rw [create_loop_eq]
  simp

/-- C1: when the segments list is present and non-empty,
create_subtitle_segments emits exactly one SubtitleSegment per
RawSegment whose stripped text is non-empty, in the original order,
carrying the original start and end values, and emits nothing for a
RawSegment whose text strips to empty. -/
theorem create_subtitle_segments_nonblank (translate : String → String)
    (tr : TranscriptionResult) (ss : List RawSegment)
    (hss : tr.segments = some ss) (hne : ss ≠ []) :
    create_subtitle_segments translate (Sum.inr tr) =
      Sum.inr (keptSegments translate ss) :=
  create_filter_map translate tr ss hss hne

/-- Witness for C1: the three concrete segments of the specification,
of which the whitespace-only middle one is dropped. -/
theorem create_subtitle_segments_nonblank_witness :
    (TranscriptionResult.mk (some "full") (some "en") (some 10)
        (some [⟨some 0, some 2, some "Hi"⟩, ⟨some 2, some 4, some "  "⟩,
          ⟨some 4, some 6, some "Bye"⟩])).segments =
      some [⟨some 0, some 2, some "Hi"⟩, ⟨some 2, some 4, some "  "⟩,
        ⟨some 4, some 6, some "Bye"⟩] ∧
    ([⟨some 0, some 2, some "Hi"⟩, ⟨some 2, some 4, some "  "⟩,
        ⟨some 4, some 6, some "Bye"⟩] : List RawSegment) ≠ [] ∧
    create_subtitle_segments (fun s => "J" ++ s)
        (Sum.inr (TranscriptionResult.mk (some "full") (some "en") (some 10)
          (some [⟨some 0, some 2, some "Hi"⟩, ⟨some 2, some 4, some "  "⟩,
            ⟨some 4, some 6, some "Bye"⟩]))) =
      Sum.inr [⟨0, 2, "Hi", "JHi"⟩, ⟨4, 6, "Bye", "JBye"⟩] :=
  ⟨rfl, by decide,
    (create_subtitle_segments_nonblank (fun s => "J" ++ s) _ _ rfl (by decide)).trans
      (by decide)⟩

/-- C2: when the segments list is empty, create_subtitle_segments
returns a single segment spanning from zero to the duration, with the
full text field as english and its translation as japanese. -/
theorem create_subtitle_segments_empty_fallback (translate : String → String)
    (tr : TranscriptionResult) (h : tr.segments.getD [] = []) :
    create_subtitle_segments translate (Sum.inr tr) =
      Sum.inr [⟨0, tr.duration.getD 0, tr.text.getD "", translate (tr.text.getD "")⟩] := by
  simp only [create_subtitle_segments, h]
  simp

/-- Witness for C2: empty segments, duration 12.5 and text Hello give
exactly one segment from zero to 12.5 with english Hello. -/
theorem create_subtitle_segments_empty_fallback_witness :
    (TranscriptionResult.mk (some "Hello") (some "en") (some (25 / 2))
        (some [])).segments.getD [] = [] ∧
    create_subtitle_segments (fun s => "訳" ++ s)
        (Sum.inr (TranscriptionResult.mk (some "Hello") (some "en") (some (25 / 2))
          (some []))) =
      Sum.inr [⟨0, 25 / 2, "Hello", "訳Hello"⟩] :=
  ⟨rfl,
    (create_subtitle_segments_empty_fallback (fun s => "訳" ++ s)
      (TranscriptionResult.mk (some "Hello") (some "en") (some (25 / 2)) (some []))
      rfl).trans rfl⟩

/-- C9: the whole-clip fallback is never dropped: with no segments and
missing text and duration keys the defaults give a segment spanning zero
to zero with empty english, and a whitespace-only transcript text is
kept as the english field without stripping. -/
theorem fallback_segment_never_dropped (translate : String → String)
    (lang : Option String) (dur : ℚ) (w : String) :
    create_subtitle_segments translate
        (Sum.inr (TranscriptionResult.mk none lang none none)) =
      Sum.inr [⟨0, 0, "", translate ""⟩] ∧
    (py_strip w = "" →
      create_subtitle_segments translate
          (Sum.inr (TranscriptionResult.mk (some w) lang (some dur) (some []))) =
        Sum.inr [⟨0, dur, w, translate w⟩]) := by
  constructor
  · simp [create_subtitle_segments]
  · intro _
    simp [create_subtitle_segments]

/-- Witness for C9 at a whitespace-only transcript text. -/
theorem fallback_segment_never_dropped_witness :
    py_strip "  " = "" ∧
    create_subtitle_segments (fun s => "t" ++ s)
        (Sum.inr (TranscriptionResult.mk none (some "en") none none)) =
      Sum.inr [⟨0, 0, "", "t"⟩] ∧
    create_subtitle_segments (fun s => "t" ++ s)
        (Sum.inr (TranscriptionResult.mk (some "  ") (some "en") (some 5) (some []))) =
      Sum.inr [⟨0, 5, "  ", "t  "⟩] :=
  ⟨by decide,
    (fallback_segment_never_dropped (fun s => "t" ++ s) (some "en") 5 "  ").1,
    (fallback_segment_never_dropped (fun s => "t" ++ s) (some "en") 5 "  ").2 (by decide)⟩

/-- C10: in the per-segment path every emitted segment carries the
stripped segment text as english, the translation of that stripped text
as japanese, and start and end values defaulting to zero when the keys
are missing. -/
theorem per_segment_fields (translate : String → String)
    (tr : TranscriptionResult) (ss : List RawSegment)
    (hss : tr.segments = some ss) (hne : ss ≠ [])
    (out : List SubtitleSegment)
    (hout : create_subtitle_segments translate (Sum.inr tr) = Sum.inr out) :
    ∀ o ∈ out, ∃ segment ∈ ss,
      (py_strip (segment.text.getD "")).isEmpty = false ∧
      o = ⟨segment.start.getD 0, segment.«end».getD 0, py_strip (segment.text.getD ""),
        translate (py_strip (segment.text.getD ""))⟩ := by
  have h := create_filter_map translate tr ss hss hne
  rw [hout] at h
  obtain rfl : out = keptSegments translate ss := Sum.inr.inj h
  intro o ho
  simp only [keptSegments, List.mem_map, List.mem_filter] at ho
  obtain ⟨segment, ⟨hmem, hkeep⟩, rfl⟩ := ho
  refine ⟨segment, hmem, ?_, rfl⟩
  simpa using hkeep

/-- Witness for C10: one segment with missing start and end keys and
padded text. -/
theorem per_segment_fields_witness :
    (TranscriptionResult.mk none none none
        (some [RawSegment.mk none none (some " Hi ")])).segments =
      some [RawSegment.mk none none (some " Hi ")] ∧
    ([RawSegment.mk none none (some " Hi ")] : List RawSegment) ≠ [] ∧
    create_subtitle_segments (fun s => "J" ++ s)
        (Sum.inr (TranscriptionResult.mk none none none
          (some [RawSegment.mk none none (some " Hi ")]))) =
      Sum.inr [⟨0, 0, "Hi", "JHi"⟩] ∧
    (∀ o ∈ ([⟨0, 0, "Hi", "JHi"⟩] : List SubtitleSegment),
      ∃ segment ∈ ([RawSegment.mk none none (some " Hi ")] : List RawSegment),
        (py_strip (segment.text.getD "")).isEmpty = false ∧
        o = ⟨segment.start.getD 0, segment.«end».getD 0, py_strip (segment.text.getD ""),
          (fun s => "J" ++ s) (py_strip (segment.text.getD ""))⟩) :=
  ⟨rfl, by decide, by decide,
    per_segment_fields (fun s => "J" ++ s)
      (TranscriptionResult.mk none none none
        (some [RawSegment.mk none none (some " Hi ")]))
      [RawSegment.mk none none (some " Hi ")] rfl (by decide)
      [⟨0, 0, "Hi", "JHi"⟩] (by decide)⟩

/-- C3: a failing translation does not abort the pipeline: the labeled
error string produced by translate_to_japanese is stored verbatim as the
failing segment's japanese field, and every subsequent non-whitespace
segment is still emitted. -/
theorem translation_error_stored_and_continues
    (chat : String → String → Except String String)
    (tr : TranscriptionResult) (pre post : List RawSegment) (bad : RawSegment)
    (e : String)
    (hss : tr.segments = some (pre ++ bad :: post))
    (hbt : (py_strip (bad.text.getD "")).isEmpty = false)
    (hchat : chat (system_prompt "subtitle") (py_strip (bad.text.getD "")) =
      Except.error e) :
    translate_to_japanese (some ()) chat (py_strip (bad.text.getD "")) "subtitle" =
      "翻訳エラー: " ++ e ∧
    create_subtitle_segments
        (fun s => translate_to_japanese (some ()) chat s "subtitle") (Sum.inr tr) =
      Sum.inr
        (keptSegments (fun s => translate_to_japanese (some ()) chat s "subtitle") pre ++
          ⟨bad.start.getD 0, bad.«end».getD 0, py_strip (bad.text.getD ""),
            "翻訳エラー: " ++ e⟩ ::
          keptSegments (fun s => translate_to_japanese (some ()) chat s "subtitle") post) := by
  have htl : translate_to_japanese (some ()) chat (py_strip (bad.text.getD "")) "subtitle" =
      "翻訳エラー: " ++ e := by
    simp [translate_to_japanese, hchat]
  refine ⟨htl, ?_⟩
  rw [create_filter_map _ tr (pre ++ bad :: post) hss (by simp)]
  simp only [keptSegments, List.filter_append, List.map_append, List.filter_cons, hbt,
    Bool.not_false, if_true, List.map_cons, htl]

/-- Witness for C3: the middle of three segments fails to translate and
the pipeline still emits the third one. -/
theorem translation_error_stored_and_continues_witness :
    (py_strip ((RawSegment.mk (some 2) (some 4) (some " Boom ")).text.getD "")).isEmpty =
      false ∧
    translate_to_japanese (some ())
        (fun _ txt => if txt = "Boom" then Except.error "net down"
          else Except.ok ("J" ++ txt))
        (py_strip ((RawSegment.mk (some 2) (some 4) (some " Boom ")).text.getD ""))
        "subtitle" = "翻訳エラー: net down" ∧
    create_subtitle_segments
        (fun s => translate_to_japanese (some ())
          (fun _ txt => if txt = "Boom" then Except.error "net down"
            else Except.ok ("J" ++ txt)) s "subtitle")
        (Sum.inr (TranscriptionResult.mk (some "full") (some "en") (some 6)
          (some [⟨some 0, some 2, some "Hi"⟩, ⟨some 2, some 4, some " Boom "⟩,
            ⟨some 4, some 6, some "Bye"⟩]))) =
      Sum.inr [⟨0, 2, "Hi", "JHi"⟩, ⟨2, 4, "Boom", "翻訳エラー: net down"⟩,
        ⟨4, 6, "Bye", "JBye"⟩] := by
  have h := translation_error_stored_and_continues
    (fun _ txt => if txt = "Boom" then Except.error "net down" else Except.ok ("J" ++ txt))
    (TranscriptionResult.mk (some "full") (some "en") (some 6)
      (some [⟨some 0, some 2, some "Hi"⟩, ⟨some 2, some 4, some " Boom "⟩,
        ⟨some 4, some 6, some "Bye"⟩]))
    [⟨some 0, some 2, some "Hi"⟩] [⟨some 4, some 6, some "Bye"⟩]
    (RawSegment.mk (some 2) (some 4) (some " Boom ")) "net down"
    rfl (by decide) rfl
  exact ⟨by decide, h.1, h.2.trans (by decide)⟩

/-- C5: with a configured client and a valid file, the adapter first
issues the request with segment granularity; on success that result is
returned, on any exception it retries exactly once without the
granularity parameter at file position zero, and if the retry also
fails the exception text is returned as a labeled error string rather
than raised. -/
theorem transcribe_retry_behavior
    (waveOpen : Except String Unit) (file_size : Nat)
    (api : Option (List String) → Nat → Except String Transcript)
    (hv : (validate_wav_file waveOpen file_size).1 = true) :
    (∀ t, api (some ["segment"]) 0 = Except.ok t →
      transcribe_english_with_timestamps (some ()) waveOpen file_size api =
        Sum.inr (resultOf t)) ∧
    (∀ e t, api (some ["segment"]) 0 = Except.error e → api none 0 = Except.ok t →
      transcribe_english_with_timestamps (some ()) waveOpen file_size api =
        Sum.inr (resultOf t)) ∧
    (∀ e1 e2, api (some ["segment"]) 0 = Except.error e1 → api none 0 = Except.error e2 →
      transcribe_english_with_timestamps (some ()) waveOpen file_size api =
        Sum.inl ("英語音声認識エラー: " ++ e2)) := by
  refine ⟨fun t h1 => ?_, fun e t h1 h2 => ?_, fun e1 e2 h1 h2 => ?_⟩
  · simp [transcribe_english_with_timestamps, hv, h1]
  · simp [transcribe_english_with_timestamps, hv, h1, h2]
  · simp [transcribe_english_with_timestamps, hv, h1, h2]

/-- Witness for C5: the first request shape is rejected and the retry
without the granularity parameter succeeds. -/
theorem transcribe_retry_behavior_witness :
    (validate_wav_file (Except.ok ()) 100).1 = true ∧
    transcribe_english_with_timestamps (some ()) (Except.ok ()) 100
        (fun g _ => match g with
          | some _ => Except.error "unsupported"
          | none => Except.ok (Transcript.mk "hello" "en" 3 none)) =
      Sum.inr (resultOf (Transcript.mk "hello" "en" 3 none)) :=
  ⟨by decide,
    (transcribe_retry_behavior (Except.ok ()) 100
        (fun g _ => match g with
          | some _ => Except.error "unsupported"
          | none => Except.ok (Transcript.mk "hello" "en" 3 none))
        (by decide)).2.1 "unsupported" (Transcript.mk "hello" "en" 3 none) rfl rfl⟩

/-- The empty string is a left identity of append. -/
theorem str_empty_append (a : String) : "" ++ a = a := by
  apply String.ext
  rw [str_data_append]
  have h : "".data = [] := rfl
  rw [h, List.nil_append]

/-- The SRT accumulator loop, started at any index and accumulator,
emits one block per segment with consecutive indices. -/
theorem gsc_loop : ∀ (l : List SubtitleSegment) (k : Nat) (acc : String),
    (List.enumFrom k l).foldl
      (fun srt_content p =>
        srt_content ++ (String.mk (natRepr p.1) ++ "\n") ++
          (format_time_srt p.2.start ++ " --> " ++ format_time_srt p.2.«end» ++ "\n") ++
          (p.2.japanese ++ "\n\n"))
      acc =
    acc ++ sconcat (((List.range' k l.length).zip l).map fun p => srtBlock p.1 p.2) := by
  intro l
  induction l with
  | nil => intro k acc; simp [sconcat, List.enumFrom, str_append_empty]
  | cons x xs ih =>
    intro k acc
    simp only [List.enumFrom, List.foldl_cons]
    rw [ih]
    have hra : (List.range' k (x :: xs).length).zip (x :: xs) =
        (k, x) :: (List.range' (k + 1) xs.length).zip xs := rfl
    have hsc : ∀ (b : String) (L : List String), sconcat (b :: L) = b ++ sconcat L :=
      fun _ _ => rfl
    rw [hra, List.map_cons, hsc, ← str_append_assoc acc (srtBlock k x) (sconcat _)]
    congr 1
    simp [srtBlock, str_append_assoc]

/-- C6: the SRT renderer output is exactly one block per segment of the
emitted sequence, numbered densely from one, each block being the index
line, the start to end timestamp line, the japanese text line and a
blank separator line, concatenated in sequence order; the empty
sequence renders to the empty string. -/
theorem generate_srt_content_blocks (subtitle_segments : List SubtitleSegment) :
    generate_srt_content subtitle_segments =
      sconcat (((List.range' 1 subtitle_segments.length).zip subtitle_segments).map
        fun p => srtBlock p.1 p.2) ∧
    generate_srt_content [] = "" := by
  constructor
  · exact (gsc_loop subtitle_segments 1 "").trans (str_empty_append _)
  · rfl

/-- C7: a path whose lowercased name does not end in the wav extension
makes process_wav_file return the conversion instruction error without
the remote transcription call influencing the result, and a failed
validation makes the transcription adapter return the validation
message independently of the remote call. -/
theorem wrong_extension_no_api_call
    (file_path : String) (client : Option Unit) (waveOpen : Except String Unit)
    (file_size : Nat)
    (api api2 : Option (List String) → Nat → Except String Transcript)
    (chat : String → String → Except String String)
    (hext : py_endswith (py_lower file_path) ".wav" = false) :
    process_wav_file client waveOpen file_size api chat file_path =
      Sum.inl "WAVファイルのみ対応しています。他の形式は事前にWAVに変換してください。" ∧
    ((validate_wav_file waveOpen file_size).1 = false →
      transcribe_english_with_timestamps client waveOpen file_size api =
        transcribe_english_with_timestamps client waveOpen file_size api2 ∧
      (client ≠ none →
        transcribe_english_with_timestamps client waveOpen file_size api =
          Sum.inl (validate_wav_file waveOpen file_size).2)) := by
  constructor
  · simp [process_wav_file, hext]
  · intro hval
    cases client with
    | none => exact ⟨rfl, fun hc => absurd rfl hc⟩
    | some _ =>
      constructor
      · simp [transcribe_english_with_timestamps, hval]
      · intro _
        simp [transcribe_english_with_timestamps, hval]

/-- Witness for C7 at a concrete mp3 path. -/
theorem wrong_extension_no_api_call_witness :
    py_endswith (py_lower "Song.MP3") ".wav" = false ∧
    (validate_wav_file (Except.error "bad header") 4).1 = false ∧
    process_wav_file (some ()) (Except.error "bad header") 4
        (fun _ _ => Except.error "no network") (fun _ _ => Except.error "no network")
        "Song.MP3" =
      Sum.inl "WAVファイルのみ対応しています。他の形式は事前にWAVに変換してください。" ∧
    transcribe_english_with_timestamps (some ()) (Except.error "bad header") 4
        (fun _ _ => Except.error "no network") =
      Sum.inl (validate_wav_file (Except.error "bad header") 4).2 := by
  have h := wrong_extension_no_api_call "Song.MP3" (some ()) (Except.error "bad header") 4
    (fun _ _ => Except.error "no network") (fun _ _ => Except.ok (Transcript.mk "" "" 0 none))
    (fun _ _ => Except.error "no network") (by decide)
  exact ⟨by decide, by decide, h.1, ((h.2 (by decide)).2 (by simp))⟩
